import Mathlib

/-!
Verification of the null-aware columnar value model and expression executor
of a vectorized SQL engine.

Part 1 embeds `common/datavalues2`: the degenerate all-null column
(`NullColumn`, `src/common/datavalues2/src/columns/null/mod.rs`), its
append-only builder (`MutableNullColumn`,
`src/common/datavalues2/src/columns/null/mutable.rs`), and the nullable
type wrapper (`NullableType`,
`src/common/datavalues2/src/types/type_nullable.rs`).

Part 2 embeds the expression executor
(`src/query/src/pipelines/transforms/transform_expression_executor.rs`).
-/

namespace Databend

/-- Scalar tagged union of data values; `Null` is the absent value.
Embeds the engine's `DataValue` (only the shape relevant here). -/
inductive DataValue where
  | Null
  | Boolean (b : Bool)
  | Int64 (i : Int)
  | UInt64 (n : Nat)
  | Str (s : String)
  deriving DecidableEq

/-- `DataValue::is_null`: true exactly on the `Null` variant. -/
def DataValue.is_null : DataValue → Bool
  | .Null => true
  | _ => false

/-- Type identifiers, embedding `TypeID` (the variants used here). -/
inductive TypeID where
  | Null
  | Nullable
  | Boolean
  | Int64
  | UInt64
  | Str
  deriving DecidableEq

/-- Error codes, embedding `common_exception::ErrorCode` (the constructors
used by the code under study). -/
inductive ErrorCode where
  | BadDataValueType (msg : String)
  | LogicalError (msg : String)
  | UnImplement (msg : String)
  | UnknownColumn (msg : String)
  deriving DecidableEq

/-! ## NullColumn (`src/common/datavalues2/src/columns/null/mod.rs`) -/

/-- A column of `length` rows, every row logically NULL, no payload. -/
structure NullColumn where
  length : Nat
  deriving DecidableEq

/-- `NullColumn::new(length)`. -/
def NullColumn.new (length : Nat) : NullColumn :=
  { length := length }

/-- `Column::len` for `NullColumn`: returns the stored length. -/
def NullColumn.len (c : NullColumn) : Nat :=
  c.length

/-- `Column::null_at` for `NullColumn`: ignores the row, always true. -/
def NullColumn.null_at (_c : NullColumn) (_row : Nat) : Bool :=
  true

/-- `Column::only_null` for `NullColumn`: always true. -/
def NullColumn.only_null (_c : NullColumn) : Bool :=
  true

/-- `Column::is_nullable` for `NullColumn`: always true. -/
def NullColumn.is_nullable (_c : NullColumn) : Bool :=
  true

/-- `Column::validity` for `NullColumn`: `(true, None)` — nullability
applies but no explicit bitmap is stored. -/
def NullColumn.validity (_c : NullColumn) : Bool × Option (List Bool) :=
  (true, none)

/-- `Column::slice` for `NullColumn`: ignores the offset, no bounds check,
returns a fresh all-null column of the requested length. -/
def NullColumn.slice (_c : NullColumn) (_offset length : Nat) : NullColumn :=
  { length := length }

/-- `Column::replicate` for `NullColumn`.  The source `debug_assert!`s that
`offsets.len() == self.len()` and then reads `offsets.last().unwrap()`;
the assertion failure and the `unwrap` panic on an empty slice are both
modelled as `none`. -/
def NullColumn.replicate (c : NullColumn) (offsets : List Nat) : Option NullColumn :=
  if offsets.length = c.len then
    match offsets.getLast? with
    | none => none
    | some l => some { length := l }
  else
    none

/-- `Column::convert_full_column` for `NullColumn`: a clone of itself. -/
def NullColumn.convert_full_column (c : NullColumn) : NullColumn :=
  c

/-- `Column::get_unchecked` for `NullColumn`: always `DataValue::Null`. -/
def NullColumn.get_unchecked (_c : NullColumn) (_index : Nat) : DataValue :=
  DataValue.Null

/-! ## MutableNullColumn (`src/common/datavalues2/src/columns/null/mutable.rs`)

The builder mutates in place in Rust; here each operation returns the
updated builder (and the other return value, when one exists). -/

/-- Append-only builder for `NullColumn`: a bare row counter. -/
structure MutableNullColumn where
  length : Nat
  deriving DecidableEq

/-- `MutableNullColumn::default()`: counter 0. -/
def MutableNullColumn.default : MutableNullColumn :=
  { length := 0 }

/-- `MutableNullColumn::finish`.  The source runs `self.length = 0;` first
and only then builds `NullColumn { length: self.length }`, so the column is
built from the already-reset counter.  Returns (updated builder, column). -/
def MutableNullColumn.finish (b : MutableNullColumn) : MutableNullColumn × NullColumn :=
  let b2 : MutableNullColumn := { b with length := 0 }
  (b2, { length := b2.length })

/-- `MutableColumn::append_default` for `MutableNullColumn`: increments the
counter. -/
def MutableNullColumn.append_default (b : MutableNullColumn) : MutableNullColumn :=
  { length := b.length + 1 }

/-- `MutableColumn::append_null` for `MutableNullColumn`: increments the
counter and reports `true`. -/
def MutableNullColumn.append_null (b : MutableNullColumn) : MutableNullColumn × Bool :=
  ({ length := b.length + 1 }, true)

/-- Apply `append_null` `k` times. -/
def MutableNullColumn.appendNulls (b : MutableNullColumn) : Nat → MutableNullColumn
  | 0 => b
  | k + 1 => MutableNullColumn.appendNulls (b.append_null).1 k

/-- Apply `append_default` `m` times. -/
def MutableNullColumn.appendDefaults (b : MutableNullColumn) : Nat → MutableNullColumn
  | 0 => b
  | m + 1 => MutableNullColumn.appendDefaults b.append_default m

/-! ## NullableType (`src/common/datavalues2/src/types/type_nullable.rs`)

The inner type is a trait object in Rust (`DataTypePtr`); it is embedded as
a structure of the members `NullableType` actually calls, so the theorems
below quantify over every possible inner type implementation. -/

/-- Columns produced by the datavalues2 type factories.  `nullable` embeds
`NullableColumn::new(inner, bitmap)`.  Modelled from the spec:
NullableColumn "pairs an inner column with a validity bitmap"; `other`
stands for any physical column an inner type may build. -/
inductive ColumnRef where
  | nullColumn (c : NullColumn)
  | nullable (inner : ColumnRef) (bitmap : List Bool)
  | other (values : List DataValue)
  deriving DecidableEq

/-- Interface of an inner data type, embedding the `DataType` trait members
`NullableType` uses: `data_type_id`, `default_value`,
`create_constant_column`, `create_column`. -/
structure DataTypeImpl where
  data_type_id : TypeID
  default_value : DataValue
  create_constant_column : DataValue → Nat → Except ErrorCode ColumnRef
  create_column : List DataValue → Except ErrorCode ColumnRef

/-- `NullableType`: wraps exactly one inner type. -/
structure NullableType where
  inner : DataTypeImpl

/-- `NullableType::create(inner)`. -/
def NullableType.create (inner : DataTypeImpl) : NullableType :=
  { inner := inner }

/-- `DataType::is_nullable` for `NullableType`: always true. -/
def NullableType.is_nullable (_t : NullableType) : Bool :=
  true

/-- `DataType::default_value` for `NullableType`: `DataValue::Null`. -/
def NullableType.default_value (_t : NullableType) : DataValue :=
  DataValue.Null

/-- `NullableType::create_constant_column`.  Mirrors the source line by
line: a first check on `inner.data_type_id() == TypeID::Null` returning a
`NullColumn`, a second, identical check returning the nesting-rejection
error, then the bitmap/payload selection (the source sets both inside one
`if data.is_null()` expression) and delegation to the inner type. -/
def NullableType.create_constant_column (t : NullableType) (data : DataValue)
    (size : Nat) : Except ErrorCode ColumnRef :=
  if t.inner.data_type_id = TypeID.Null then
    Except.ok (ColumnRef.nullColumn (NullColumn.new size))
  else if t.inner.data_type_id = TypeID.Null then
    Except.error (ErrorCode.BadDataValueType "Nullable type can't be inside nullable type")
  else
    let bitmap : List Bool :=
      if data.is_null then List.replicate size false else List.replicate size true
    let payload : DataValue :=
      if data.is_null then t.inner.default_value else data
    match t.inner.create_constant_column payload size with
    | Except.error e => Except.error e
    | Except.ok column => Except.ok (ColumnRef.nullable column bitmap)

/-- The staging sequence of `NullableType::create_column`: each `Null`
replaced by the inner default, every other value kept. -/
def NullableType.stagedValues (t : NullableType) (data : List DataValue) : List DataValue :=
  data.map (fun v => if v.is_null then t.inner.default_value else v)

/-- The bitmap of `NullableType::create_column`: one bit per value, false
exactly at the `Null` values. -/
def NullableType.stagedBitmap (data : List DataValue) : List Bool :=
  data.map (fun v => !v.is_null)

/-- `NullableType::create_column`: per value push one bitmap bit and one
staged value (inner default when null, the value otherwise), then build the
inner column from the staged sequence and pair it with the bitmap. -/
def NullableType.create_column (t : NullableType) (data : List DataValue) :
    Except ErrorCode ColumnRef :=
  match t.inner.create_column (t.stagedValues data) with
  | Except.error e => Except.error e
  | Except.ok column => Except.ok (ColumnRef.nullable column (NullableType.stagedBitmap data))

/-! ## Expression executor
(`src/query/src/pipelines/transforms/transform_expression_executor.rs`)

The executor operates on the v1 `common_datavalues` column model
(`DataColumn::Array` / `DataColumn::Constant`), schemas and planner action
types, none of which are under `src/`; those carriers are modelled from the
spec where marked.  Row-level null-ness is carried by the values themselves
(`DataValue::Null`), matching the spec's validity description. -/

/-- Modelled from the spec: the v1 `DataColumn` — either a materialized
array of per-row values or a constant value repeated for a row count. -/
inductive DataColumn where
  | Array (values : List DataValue)
  | Constant (value : DataValue) (rows : Nat)
  deriving DecidableEq

/-- Row count of a column. -/
def DataColumn.len : DataColumn → Nat
  | .Array vs => vs.length
  | .Constant _ n => n

/-- The per-row values of a column, a constant expanded to its row count. -/
def DataColumn.to_values : DataColumn → List DataValue
  | .Array vs => vs
  | .Constant v n => List.replicate n v

/-- Whether the row at `i` is null (meaningful for `i < len`). -/
def DataColumn.null_at : DataColumn → Nat → Bool
  | .Constant v _, _ => v.is_null
  | .Array vs, i => (vs.getD i DataValue.Null).is_null

/-- Modelled from the spec: `get_validity` — one bit per row, bit = true
means the row is valid (non-null). -/
def DataColumn.get_validity : DataColumn → List Bool
  | .Array vs => vs.map (fun v => !v.is_null)
  | .Constant v n => List.replicate n (!v.is_null)

/-- Modelled from the spec: a validity is `all_null` when no bit is set
(every row null). -/
def allNull (validity : List Bool) : Bool :=
  validity.all (fun b => !b)

/-- Pointwise AND of two bit lists (length = the shorter one). -/
def andBits : List Bool → List Bool → List Bool
  | a :: as2, b :: bs => (a && b) :: andBits as2 bs
  | _, _ => []

/-- Modelled from the spec: `apply_validities` — intersect the column's own
validity with the logical AND of every argument validity; a row of the
result is null if the column said so or any argument validity clears it. -/
def DataColumn.apply_validities (c : DataColumn) (validities : List (List Bool)) :
    Except ErrorCode DataColumn :=
  let mask : List Bool := validities.foldl andBits c.get_validity
  Except.ok (DataColumn.Array
    ((c.to_values.zip mask).map (fun p => if p.2 then p.1 else DataValue.Null)))

/-- Modelled from the spec: the declared type vocabulary of the executor's
schemas (v1 `DataType`; an opaque tag is all the executor inspects). -/
inductive DataTypeKind where
  | Null
  | Int32
  | Int64
  | Boolean
  | Utf8
  deriving DecidableEq

/-- Modelled from the spec: `DataValue::new_from_data_type(ty, nullable)` —
the null value of the type when `nullable` is set, the type's zero value
otherwise (only the `nullable = true` form is exercised here). -/
def DataValue.new_from_data_type (dt : DataTypeKind) (nullable : Bool) : DataValue :=
  if nullable then
    DataValue.Null
  else
    match dt with
    | .Null => DataValue.Null
    | .Int32 => DataValue.Int64 0
    | .Int64 => DataValue.Int64 0
    | .Boolean => DataValue.Boolean false
    | .Utf8 => DataValue.Str ""

/-- Modelled from the spec: a schema field — name, declared type,
nullability. -/
structure DataField where
  name : String
  data_type : DataTypeKind
  nullable : Bool
  deriving DecidableEq

/-- `DataField::new`. -/
def DataField.new (name : String) (data_type : DataTypeKind) (nullable : Bool) :
    DataField :=
  { name := name, data_type := data_type, nullable := nullable }

/-- Modelled from the spec: a column paired with its schema field. -/
structure DataColumnWithField where
  column : DataColumn
  field : DataField
  deriving DecidableEq

/-- Modelled from the spec: an ordered field list. -/
structure DataSchema where
  fields : List DataField
  deriving DecidableEq

/-- Modelled from the spec: a batch — a schema plus its columns, aligned
positionally. -/
structure DataBlock where
  schema : DataSchema
  columns : List DataColumn
  deriving DecidableEq

/-- Row count of a block (row count of its first column; 0 if empty). -/
def DataBlock.num_rows (b : DataBlock) : Nat :=
  match b.columns with
  | [] => 0
  | c :: _ => c.len

/-- Modelled from the spec: `DataSchema::field_with_name` — first field of
that name, else an unknown-column error. -/
def DataSchema.field_with_name (s : DataSchema) (name : String) :
    Except ErrorCode DataField :=
  match s.fields.find? (fun f => f.name == name) with
  | some f => Except.ok f
  | none => Except.error (ErrorCode.UnknownColumn ("Unable to get field named " ++ name))

/-- Modelled from the spec: `DataBlock::try_column_by_name` — the column at
the named field's position, else an unknown-column error. -/
def DataBlock.try_column_by_name (b : DataBlock) (name : String) :
    Except ErrorCode DataColumn :=
  match b.schema.fields.findIdx? (fun f => f.name == name) with
  | some i =>
    match b.columns[i]? with
    | some c => Except.ok c
    | none => Except.error (ErrorCode.LogicalError "column index out of range")
  | none => Except.error (ErrorCode.UnknownColumn ("Unable to get column by name " ++ name))

/-- Modelled from the spec: a scalar function as the executor sees it — the
`passthrough_null` flag and the batch evaluator. -/
structure ScalarFunction where
  passthrough_null : Bool
  eval : List DataColumnWithField → Nat → Except ErrorCode DataColumn

/-- Modelled from the spec: `ActionFunction` — target name, argument names,
nullability flag, declared return type, and the function itself. -/
structure ActionFunction where
  name : String
  arg_names : List String
  is_nullable : Bool
  return_type : DataTypeKind
  func : ScalarFunction

/-- Modelled from the spec: `ActionInput`. -/
structure ActionInput where
  name : String
  deriving DecidableEq

/-- Modelled from the spec: `ActionConstant`. -/
structure ActionConstant where
  name : String
  value : DataValue
  data_type : DataTypeKind
  deriving DecidableEq

/-- Modelled from the spec: `ActionAlias` — expose the column computed
under `arg_name` as `name`. -/
structure ActionAlias where
  name : String
  arg_name : String
  deriving DecidableEq

/-- Modelled from the spec: `ExpressionAction` — the four atomic action
variants of a linearized expression chain. -/
inductive ExpressionAction where
  | Input (a : ActionInput)
  | Function (f : ActionFunction)
  | Constant (c : ActionConstant)
  | Alias (a : ActionAlias)

/-- Modelled from the spec: `ExpressionAction::column_name` — the action's
target name. -/
def ExpressionAction.column_name : ExpressionAction → String
  | .Input a => a.name
  | .Function f => f.name
  | .Constant c => c.name
  | .Alias a => a.name

/-- The working map `HashMap<&str, DataColumnWithField>`, embedded as an
association list (first binding wins on lookup, as a map has one binding
per key). -/
abbrev CMap := List (String × DataColumnWithField)

/-- `HashMap::get`. -/
def mapGet {α : Type} : List (String × α) → String → Option α
  | [], _ => none
  | (k2, v) :: rest, k => if k2 == k then some v else mapGet rest k

/-- `HashMap::contains_key`. -/
def containsKey {α : Type} (m : List (String × α)) (k : String) : Bool :=
  (mapGet m k).isSome

/-- `HashMap::insert` (replacing an existing binding). -/
def mapInsert {α : Type} : List (String × α) → String → α → List (String × α)
  | [], k, v => [(k, v)]
  | (k2, v2) :: rest, k, v =>
    if k2 == k then (k, v) :: rest else (k2, v2) :: mapInsert rest k v

/-- The alias recording step: push `name` onto the entry of `arg_name`
(append a fresh singleton entry when absent) — the `alias_action_map`
update of `execute`. -/
def aliasRecord : List (String × List String) → String → String → List (String × List String)
  | [], arg_name, name => [(arg_name, [name])]
  | (k, v) :: rest, arg_name, name =>
    if k == arg_name then (k, v ++ [name]) :: rest
    else (k, v) :: aliasRecord rest arg_name name

/-- Seeding of the working map: one entry per schema field of the input
block, bound to the block's column of that name. -/
def seedMap : List DataField → DataBlock → CMap → Except ErrorCode CMap
  | [], _, cm => Except.ok cm
  | f :: rest, block, cm =>
    match block.try_column_by_name f.name with
    | Except.error e => Except.error e
    | Except.ok col =>
      seedMap rest block (mapInsert cm f.name { column := col, field := f })

/-- Argument resolution of `execute_function`: each declared argument name
looked up in the working map, the first missing one failing with the
prepared-arguments logical error. -/
def resolveArgs (cm : CMap) : List String → Except ErrorCode (List DataColumnWithField)
  | [] => Except.ok []
  | arg :: rest =>
    match mapGet cm arg with
    | none => Except.error
        (ErrorCode.LogicalError "Arguments must be prepared before function transform")
    | some col =>
      match resolveArgs cm rest with
      | Except.error e => Except.error e
      | Except.ok cols => Except.ok (col :: cols)

/-- `ExpressionExecutor::execute_function`: resolve the arguments; when the
function is flagged nullable and passes null through, collect the argument
validities, short-circuit to a constant null column if any argument is
entirely null, otherwise evaluate and intersect validities; when not, just
evaluate.  Wrap the column with the declared output field. -/
def executeFunction (cm : CMap) (f : ActionFunction) (rows : Nat) :
    Except ErrorCode DataColumnWithField :=
  match resolveArgs cm f.arg_names with
  | Except.error e => Except.error e
  | Except.ok arg_columns =>
    let result : Except ErrorCode DataColumn :=
      if f.is_nullable && f.func.passthrough_null then
        let arg_column_validities :=
          arg_columns.map (fun column_with_field => column_with_field.column.get_validity)
        if arg_column_validities.any (fun validity => allNull validity) then
          Except.ok (DataColumn.Constant
            (DataValue.new_from_data_type f.return_type true) rows)
        else
          match f.func.eval arg_columns rows with
          | Except.error e => Except.error e
          | Except.ok column => column.apply_validities arg_column_validities
      else
        f.func.eval arg_columns rows
    match result with
    | Except.error e => Except.error e
    | Except.ok column =>
      Except.ok { column := column
                  field := DataField.new f.name f.return_type f.is_nullable }

/-- One iteration of the action loop over the working map: skip when the
target name is already mapped (the `continue`), else dispatch
Input/Function/Constant into the map (Alias computes nothing). -/
def applyAction (action : ExpressionAction) (block : DataBlock) (rows : Nat)
    (cm : CMap) : Except ErrorCode CMap :=
  if containsKey cm action.column_name then
    Except.ok cm
  else
    match action with
    | ExpressionAction.Input inp =>
      match block.try_column_by_name inp.name with
      | Except.error e => Except.error e
      | Except.ok column =>
        match block.schema.field_with_name inp.name with
        | Except.error e => Except.error e
        | Except.ok fld =>
          Except.ok (mapInsert cm inp.name { column := column, field := fld })
    | ExpressionAction.Function f =>
      match executeFunction cm f rows with
      | Except.error e => Except.error e
      | Except.ok cwf => Except.ok (mapInsert cm f.name cwf)
    | ExpressionAction.Constant c =>
      let column := DataColumn.Constant c.value rows
      let cwf : DataColumnWithField :=
        { column := column
          field := DataField.new c.name c.data_type c.value.is_null }
      Except.ok (mapInsert cm c.name cwf)
    | ExpressionAction.Alias _ => Except.ok cm

/-- The alias-action-map update of one loop iteration: record the alias
target under its source (performed before the skip check, as in the
source). -/
def recordAction (action : ExpressionAction)
    (aam : List (String × List String)) : List (String × List String) :=
  match action with
  | ExpressionAction.Alias al => aliasRecord aam al.arg_name al.name
  | _ => aam

/-- The action loop of `execute`: record every alias into the
alias-action map, skip actions whose target name is already mapped, and
dispatch Input/Function/Constant actions into the working map. -/
def runActions : List ExpressionAction → DataBlock → Nat → CMap →
    List (String × List String) →
    Except ErrorCode (CMap × List (String × List String))
  | [], _, _, cm, aam => Except.ok (cm, aam)
  | action :: rest, block, rows, cm, aam =>
    match applyAction action block rows cm with
    | Except.error e => Except.error e
    | Except.ok cm2 => runActions rest block rows cm2 (recordAction action aam)

/-- The duplicate-alias message, `format!("Duplicate alias name :{}", name)`. -/
def dupAliasMsg (name : String) : String :=
  "Duplicate alias name :" ++ name

/-- Register one source column under each of its alias target names,
failing with the duplicate-alias error when a target is already taken. -/
def insertAliases : List String → DataColumnWithField → CMap → Except ErrorCode CMap
  | [], _, am => Except.ok am
  | n :: ns, col, am =>
    if containsKey am n then
      Except.error (ErrorCode.UnImplement (dupAliasMsg n))
    else
      insertAliases ns col (mapInsert am n col)

/-- The alias-projection step of `execute`: for every recorded source name
fetch its computed column (prepared-arguments error when missing) and
register it under every target name. -/
def aliasProjectStep : List (String × List String) → CMap → CMap → Except ErrorCode CMap
  | [], _, am => Except.ok am
  | (k, names) :: rest, cm, am =>
    match mapGet cm k with
    | none => Except.error
        (ErrorCode.LogicalError "Arguments must be prepared before alias transform")
    | some col =>
      match insertAliases names col am with
      | Except.error e => Except.error e
      | Except.ok am2 => aliasProjectStep rest cm am2

/-- The final projection of `execute`: per output field prefer the
alias-registered column, else the plainly computed one; a field resolving
to neither is the fatal projection logical error. -/
def projectFields : List DataField → CMap → CMap → Except ErrorCode (List DataColumn)
  | [], _, _ => Except.ok []
  | f :: rest, am, cm =>
    let found : Option DataColumnWithField :=
      match mapGet am f.name with
      | some c => some c
      | none => mapGet cm f.name
    match found with
    | none => Except.error
        (ErrorCode.LogicalError ("Projection column: " ++ f.name ++ " not exists, there are bugs!"))
    | some cwf =>
      match projectFields rest am cm with
      | Except.error e => Except.error e
      | Except.ok cols => Except.ok (cwf.column :: cols)

/-- `ExpressionExecutor`: immutable chain, output schema, alias flag. -/
structure ExpressionExecutor where
  description : String
  input_schema : DataSchema
  output_schema : DataSchema
  chain : List ExpressionAction
  alias_project : Bool

/-- `ExpressionExecutor::execute`: seed the working map from the input
block, run the chain, perform alias projection when enabled, and project
onto the output schema. -/
def ExpressionExecutor.execute (e : ExpressionExecutor) (block : DataBlock) :
    Except ErrorCode DataBlock :=
  match seedMap block.schema.fields block [] with
  | Except.error err => Except.error err
  | Except.ok cm0 =>
    match runActions e.chain block block.num_rows cm0 [] with
    | Except.error err => Except.error err
    | Except.ok (cm, aam) =>
      match (if e.alias_project then aliasProjectStep aam cm [] else Except.ok []) with
      | Except.error err => Except.error err
      | Except.ok am =>
        match projectFields e.output_schema.fields am cm with
        | Except.error err => Except.error err
        | Except.ok cols => Except.ok { schema := e.output_schema, columns := cols }

/-! ## Concrete instances used to evaluate the development -/

/-- A list of naturals is non-decreasing (the offsets-law precondition). -/
def nonDecreasing : List Nat → Bool
  | a :: b :: rest => decide (a ≤ b) && nonDecreasing (b :: rest)
  | _ => true

/-- The degenerate Null inner type: id `Null`, default `Null`, both
factories producing bare `NullColumn`s. -/
def nullTypeImpl : DataTypeImpl :=
  { data_type_id := TypeID.Null
    default_value := DataValue.Null
    create_constant_column := fun _ size =>
      Except.ok (ColumnRef.nullColumn (NullColumn.new size))
    create_column := fun data =>
      Except.ok (ColumnRef.nullColumn (NullColumn.new data.length)) }

/-- An Int64-like inner type: id `Int64`, default 0, factories producing
plain physical columns. -/
def int64TypeImpl : DataTypeImpl :=
  { data_type_id := TypeID.Int64
    default_value := DataValue.Int64 0
    create_constant_column := fun v size =>
      Except.ok (ColumnRef.other (List.replicate size v))
    create_column := fun data => Except.ok (ColumnRef.other data) }

/-- Input block with two one-row Int64 columns `a` and `b`. -/
def blockAB : DataBlock :=
  { schema := { fields := [DataField.new "a" DataTypeKind.Int64 false,
                           DataField.new "b" DataTypeKind.Int64 false] }
    columns := [DataColumn.Array [DataValue.Int64 1],
                DataColumn.Array [DataValue.Int64 2]] }

/-- A chain whose two aliases both target `y`, from sources `a` and `b`. -/
def chainDupY : List ExpressionAction :=
  [ExpressionAction.Alias { name := "y", arg_name := "a" },
   ExpressionAction.Alias { name := "y", arg_name := "b" }]

/-- Executor over `chainDupY` with alias projection disabled. -/
def execDupNoProject : ExpressionExecutor :=
  { description := "duplicate alias, alias_project off"
    input_schema := blockAB.schema
    output_schema := { fields := [DataField.new "a" DataTypeKind.Int64 false] }
    chain := chainDupY
    alias_project := false }

/-- Executor over `chainDupY` with alias projection enabled. -/
def execDupProject : ExpressionExecutor :=
  { description := "duplicate alias, alias_project on"
    input_schema := blockAB.schema
    output_schema := { fields := [DataField.new "a" DataTypeKind.Int64 false] }
    chain := chainDupY
    alias_project := true }

/-- A three-row Int64 argument column with a null in the middle. -/
def argColumnMasked : DataColumn :=
  DataColumn.Array [DataValue.Int64 1, DataValue.Null, DataValue.Int64 3]

/-- Working map binding `a` to `argColumnMasked`. -/
def cmapMasked : CMap :=
  [("a", { column := argColumnMasked
           field := DataField.new "a" DataTypeKind.Int64 true })]

/-- A nullable passthrough function of `a` whose raw output claims full
validity on all three rows. -/
def funcMasked : ActionFunction :=
  { name := "f"
    arg_names := ["a"]
    is_nullable := true
    return_type := DataTypeKind.Int64
    func := { passthrough_null := true
              eval := fun _ _ => Except.ok
                (DataColumn.Array [DataValue.Int64 2, DataValue.Int64 9, DataValue.Int64 4]) } }

/-- Working map binding `n` to a two-row entirely-null column. -/
def cmapAllNull : CMap :=
  [("n", { column := DataColumn.Array [DataValue.Null, DataValue.Null]
           field := DataField.new "n" DataTypeKind.Int64 true })]

/-- A nullable passthrough function of `n` whose evaluator always fails —
any invocation of it would surface as an error. -/
def funcAllNull : ActionFunction :=
  { name := "g"
    arg_names := ["n"]
    is_nullable := true
    return_type := DataTypeKind.Int64
    func := { passthrough_null := true
              eval := fun _ _ => Except.error (ErrorCode.LogicalError "evaluator invoked") } }

/-! ## Theorems -/

/-- C9: `NullColumn::new(N)` has `len() = N`, `null_at(i) = true` for every
`i < N`, `only_null() = true`, `is_nullable() = true`, and
`validity() = (true, None)`. -/
theorem nullColumn_new_spec (N : Nat) :
    (NullColumn.new N).len = N ∧
    (∀ i, i < N → (NullColumn.new N).null_at i = true) ∧
    (NullColumn.new N).only_null = true ∧
    (NullColumn.new N).is_nullable = true ∧
    (NullColumn.new N).validity = (true, none) :=
  ⟨rfl, fun _ _ => rfl, rfl, rfl, rfl⟩

/-- Witness for C9 at `N = 3`, `i = 1`. -/
theorem nullColumn_new_spec_witness :
    (NullColumn.new 3).len = 3 ∧ (NullColumn.new 3).null_at 1 = true :=
  ⟨(nullColumn_new_spec 3).1, (nullColumn_new_spec 3).2.1 1 (by decide)⟩

/-- C10: `NullColumn::slice(offset, length)` is total for every column and
every pair of arguments — the embedding carries no error case and no bounds
check, mirroring the source — and returns an all-null (`only_null`) column
of exactly `length` rows, with the `offset` argument having no effect on
the result. -/
theorem nullColumn_slice_total (c : NullColumn) (offset length : Nat) :
    (c.slice offset length).len = length ∧
    (∀ offset2, c.slice offset length = c.slice offset2 length) ∧
    (∀ i, (c.slice offset length).null_at i = true) ∧
    (c.slice offset length).only_null = true :=
  ⟨rfl, fun _ => rfl, fun _ => rfl, rfl⟩

/-- C3 (code bug): `MutableNullColumn::finish` zeroes the counter *before*
building the column, so after `k` `append_null`s and `m` `append_default`s
the returned column always has length 0 — not `k + m`; the builder's
length does reset to 0.  In particular one `append_null` followed by
`finish` yields length 0, not 1. -/
theorem mutableNullColumn_finish_empty :
    (∀ k m : Nat,
      ((((MutableNullColumn.default.appendNulls k).appendDefaults m).finish).2).len = 0 ∧
      ((((MutableNullColumn.default.appendNulls k).appendDefaults m).finish).1).length = 0) ∧
    (((MutableNullColumn.default.appendNulls 1).finish).2).len ≠ 1 := by
  refine ⟨fun k m => ⟨rfl, rfl⟩, by decide⟩

/-- C8: for a `NullColumn` of length at least 1 and a non-decreasing
offsets list of exactly that length, `replicate(offsets)` succeeds and
returns an all-null column whose length is the last offset. -/
theorem nullColumn_replicate_spec (c : NullColumn) (offsets : List Nat) (l : Nat)
    (h1 : 1 ≤ c.len) (h2 : offsets.length = c.len)
    (h3 : nonDecreasing offsets = true)
    (h4 : offsets.getLast? = some l) :
    c.replicate offsets = some (NullColumn.new l) ∧
    (NullColumn.new l).len = l ∧
    (∀ i, (NullColumn.new l).null_at i = true) ∧
    (NullColumn.new l).only_null = true := by
  refine ⟨?_, rfl, fun _ => rfl, rfl⟩
  unfold NullColumn.replicate
  rw [if_pos h2, h4]
  rfl

/-- Witness for C8: a length-4 `NullColumn` replicated with `[2,5,5,9]`
yields a length-9 all-null column. -/
theorem nullColumn_replicate_spec_witness :
    (NullColumn.new 4).replicate [2, 5, 5, 9] = some (NullColumn.new 9) :=
  (nullColumn_replicate_spec (NullColumn.new 4) [2, 5, 5, 9] 9
    (by decide) (by decide) (by decide) (by decide)).1

/-! ### List indexing helpers -/

/-- `getD` below the length ignores the default. -/
theorem listGetD_of_lt {α : Type} (l : List α) (i : Nat) (d1 d2 : α)
    (h : i < l.length) : l.getD i d1 = l.getD i d2 := by
  induction l generalizing i with
  | nil => simp at h
  | cons a t ih =>
    cases i with
    | zero => rfl
    | succ j => exact ih j (by simpa using h)

/-- `getD` through `map`, stated with the mapped default. -/
theorem listGetD_map {α β : Type} (f : α → β) (l : List α) (i : Nat) (d : α)
    (h : i < l.length) : (l.map f).getD i (f d) = f (l.getD i d) := by
  induction l generalizing i with
  | nil => simp at h
  | cons a t ih =>
    cases i with
    | zero => rfl
    | succ j => exact ih j (by simpa using h)

/-- `getD` on `replicate` below the length. -/
theorem listGetD_replicate {α : Type} (n i : Nat) (v d : α) (h : i < n) :
    (List.replicate n v).getD i d = v := by
  induction n generalizing i with
  | zero => omega
  | succ m ih =>
    cases i with
    | zero => rfl
    | succ j => exact ih j (by omega)

/-- `getD` through `zip` below both lengths. -/
theorem listGetD_zip {α β : Type} (a : List α) (b : List β) (i : Nat)
    (da : α) (db : β) (h1 : i < a.length) (h2 : i < b.length) :
    (a.zip b).getD i (da, db) = (a.getD i da, b.getD i db) := by
  induction a generalizing b i with
  | nil => simp at h1
  | cons x xs ih =>
    cases b with
    | nil => simp at h2
    | cons y ys =>
      cases i with
      | zero => rfl
      | succ j => exact ih ys j (by simpa using h1) (by simpa using h2)

/-! ### NullableType theorems -/

/-- C4: when the inner type is `Null`, `create_constant_column` returns a
bare `NullColumn` of the requested size for every value; and on every
input, every error the function returns is propagated from the inner
type's constructor — the function's own nesting-rejection branch (the
second, identical `inner == Null` check) is unreachable and its
`BadDataValueType` error is never produced. -/
theorem nullableType_constant_null_inner (t : NullableType) (data : DataValue)
    (size : Nat) :
    (t.inner.data_type_id = TypeID.Null →
      t.create_constant_column data size =
        Except.ok (ColumnRef.nullColumn (NullColumn.new size))) ∧
    (∀ e, t.create_constant_column data size = Except.error e →
      ∃ payload, t.inner.create_constant_column payload size = Except.error e) := by
  constructor
  · intro h
    unfold NullableType.create_constant_column
    rw [if_pos h]
  · intro e he
    unfold NullableType.create_constant_column at he
    by_cases h : t.inner.data_type_id = TypeID.Null
    · rw [if_pos h] at he
      exact absurd he (by simp)
    · rw [if_neg h, if_neg h] at he
      simp only at he
      refine ⟨if data.is_null then t.inner.default_value else data, ?_⟩
      cases hcc : t.inner.create_constant_column
          (if data.is_null then t.inner.default_value else data) size with
      | error e2 =>
        rw [hcc] at he
        cases he
        rfl
      | ok c =>
        rw [hcc] at he
        cases he

/-- Witness for C4: inner type `Null`, value `Null`, size 5 yields a
`NullColumn` of length 5. -/
theorem nullableType_constant_null_inner_witness :
    (NullableType.create nullTypeImpl).create_constant_column DataValue.Null 5 =
      Except.ok (ColumnRef.nullColumn (NullColumn.new 5)) :=
  (nullableType_constant_null_inner (NullableType.create nullTypeImpl)
    DataValue.Null 5).1 rfl

/-- C5: `create_column` pairs a bitmap of one bit per input value — clear
exactly at the `Null` values — with the inner column built from the staged
sequence in which each `Null` is replaced by the inner default and every
other value kept; inner construction errors propagate unchanged. -/
theorem nullableType_create_column_spec (t : NullableType) (data : List DataValue) :
    (NullableType.stagedBitmap data).length = data.length ∧
    (∀ i, i < data.length →
      (NullableType.stagedBitmap data).getD i false
          = !(data.getD i DataValue.Null).is_null ∧
      (t.stagedValues data).getD i DataValue.Null
          = (if (data.getD i DataValue.Null).is_null then t.inner.default_value
             else data.getD i DataValue.Null)) ∧
    (∀ c, t.inner.create_column (t.stagedValues data) = Except.ok c →
      t.create_column data =
        Except.ok (ColumnRef.nullable c (NullableType.stagedBitmap data))) ∧
    (∀ e, t.inner.create_column (t.stagedValues data) = Except.error e →
      t.create_column data = Except.error e) := by
  refine ⟨by simp [NullableType.stagedBitmap], ?_, ?_, ?_⟩
  · intro i hi
    constructor
    · have := listGetD_map (fun v => !v.is_null) data i DataValue.Null hi
      simpa [NullableType.stagedBitmap, DataValue.is_null] using this
    · have := listGetD_map
        (fun v => if v.is_null then t.inner.default_value else v) data i DataValue.Null hi
      have hd : (t.stagedValues data).getD i DataValue.Null
          = (t.stagedValues data).getD i
              (if (DataValue.Null : DataValue).is_null then t.inner.default_value
               else DataValue.Null) := by
        apply listGetD_of_lt
        simpa [NullableType.stagedValues] using hi
      rw [hd]
      simpa [NullableType.stagedValues, DataValue.is_null] using this
  · intro c hc
    unfold NullableType.create_column
    rw [hc]
  · intro e he
    unfold NullableType.create_column
    rw [he]

/-- Witness for C5 over the Int64 inner type at `[Null, 7, Null]`:
validity `[false, true, false]`, staged values `[0, 7, 0]`. -/
theorem nullableType_create_column_spec_witness :
    (NullableType.create int64TypeImpl).create_column
        [DataValue.Null, DataValue.Int64 7, DataValue.Null] =
      Except.ok (ColumnRef.nullable
        (ColumnRef.other [DataValue.Int64 0, DataValue.Int64 7, DataValue.Int64 0])
        [false, true, false]) :=
  (nullableType_create_column_spec (NullableType.create int64TypeImpl)
      [DataValue.Null, DataValue.Int64 7, DataValue.Null]).2.2.1
    (ColumnRef.other [DataValue.Int64 0, DataValue.Int64 7, DataValue.Int64 0]) rfl

/-- C6: for a non-`Null` inner type, `create_constant_column(V, n)` — when
the inner constant construction succeeds — pairs the inner column with a
length-`n` bitmap that is all-false when `V` is null (the inner default
substituted as payload) and all-true otherwise, the payload being `V`
itself when `V` is non-null. -/
theorem nullableType_constant_nonnull_inner (t : NullableType) (V : DataValue)
    (n : Nat) (c : ColumnRef)
    (hinner : t.inner.data_type_id ≠ TypeID.Null)
    (hok : t.inner.create_constant_column
        (if V.is_null then t.inner.default_value else V) n = Except.ok c) :
    t.create_constant_column V n =
      Except.ok (ColumnRef.nullable c (List.replicate n (!V.is_null))) ∧
    (List.replicate n (!V.is_null)).length = n ∧
    (V.is_null = false → (if V.is_null then t.inner.default_value else V) = V) ∧
    (V.is_null = true → List.replicate n (!V.is_null) = List.replicate n false) := by
  refine ⟨?_, by simp, ?_, ?_⟩
  · unfold NullableType.create_constant_column
    rw [if_neg hinner, if_neg hinner]
    simp only [hok]
    cases hv : V.is_null <;> simp [hv]
  · intro hv
    simp [hv]
  · intro hv
    simp [hv]

/-- Witness for C6 over the Int64 inner type with `V = 7`, `n = 3`:
validity `[true, true, true]` and the value 7 repeated. -/
theorem nullableType_constant_nonnull_inner_witness :
    (NullableType.create int64TypeImpl).create_constant_column (DataValue.Int64 7) 3 =
      Except.ok (ColumnRef.nullable
        (ColumnRef.other (List.replicate 3 (DataValue.Int64 7)))
        [true, true, true]) := by
  have h := (nullableType_constant_nonnull_inner (NullableType.create int64TypeImpl)
      (DataValue.Int64 7) 3
      (ColumnRef.other (List.replicate 3 (DataValue.Int64 7)))
      (by decide) rfl).1
  simpa using h

/-! ### Function-action theorems -/

/-- Short-circuit core: any nullable passthrough function whose resolved
arguments include an entirely-null column produces the constant null
column of the declared return type, whatever its evaluator is. -/
theorem executeFunction_shortcircuit_core (cm : CMap) (g : ActionFunction)
    (rows : Nat) (args : List DataColumnWithField)
    (h1 : g.is_nullable = true) (h2 : g.func.passthrough_null = true)
    (h3 : resolveArgs cm g.arg_names = Except.ok args)
    (h4 : (args.map (fun c => c.column.get_validity)).any
        (fun v => allNull v) = true) :
    executeFunction cm g rows =
      Except.ok { column := DataColumn.Constant DataValue.Null rows
                  field := DataField.new g.name g.return_type g.is_nullable } := by
  unfold executeFunction
  rw [h3]
  simp only [h1, h2, Bool.and_self, if_true, h4, DataValue.new_from_data_type]

/-- C2: for a nullable passthrough function with an entirely-null argument
column, the action's result is the constant all-null column of the declared
return type with the batch's row count (all rows null), and the result does
not depend on the evaluator — any function with the same name, arguments,
flags and return type produces the identical result, so the evaluator is
never invoked. -/
theorem executeFunction_allnull_shortcircuit (cm : CMap) (f : ActionFunction)
    (rows : Nat) (args : List DataColumnWithField)
    (h1 : f.is_nullable = true) (h2 : f.func.passthrough_null = true)
    (h3 : resolveArgs cm f.arg_names = Except.ok args)
    (h4 : (args.map (fun c => c.column.get_validity)).any
        (fun v => allNull v) = true) :
    executeFunction cm f rows =
      Except.ok { column := DataColumn.Constant DataValue.Null rows
                  field := DataField.new f.name f.return_type f.is_nullable } ∧
    (DataColumn.Constant DataValue.Null rows).len = rows ∧
    (∀ i, (DataColumn.Constant DataValue.Null rows).null_at i = true) ∧
    (∀ g : ActionFunction, g.name = f.name → g.arg_names = f.arg_names →
      g.is_nullable = true → g.func.passthrough_null = true →
      g.return_type = f.return_type →
      executeFunction cm g rows = executeFunction cm f rows) := by
  have base := executeFunction_shortcircuit_core cm f rows args h1 h2 h3 h4
  refine ⟨base, rfl, fun _ => rfl, ?_⟩
  intro g hn ha hi hp hr
  have hg := executeFunction_shortcircuit_core cm g rows args hi hp (by rw [ha, h3]) h4
  rw [hg, base, hn, hr, hi, h1]

/-- Witness for C2: a failing evaluator is never reached when its single
argument is entirely null; the output is the constant null column. -/
theorem executeFunction_allnull_shortcircuit_witness :
    executeFunction cmapAllNull funcAllNull 2 =
      Except.ok { column := DataColumn.Constant DataValue.Null 2
                  field := DataField.new funcAllNull.name funcAllNull.return_type
                    funcAllNull.is_nullable } :=
  (executeFunction_allnull_shortcircuit cmapAllNull funcAllNull 2
      [{ column := DataColumn.Array [DataValue.Null, DataValue.Null]
         field := DataField.new "n" DataTypeKind.Int64 true }]
      rfl rfl rfl rfl).1

/-- The validity has one bit per row. -/
theorem get_validity_length (c : DataColumn) : c.get_validity.length = c.len := by
  cases c <;> simp [DataColumn.get_validity, DataColumn.len]

/-- Below the length, the validity bit is the negated null flag. -/
theorem get_validity_getD (c : DataColumn) (i : Nat) (hi : i < c.len) :
    c.get_validity.getD i false = !c.null_at i := by
  cases c with
  | Array vs =>
    have := listGetD_map (fun v => !v.is_null) vs i DataValue.Null
      (by simpa [DataColumn.len] using hi)
    simpa [DataColumn.get_validity, DataColumn.null_at, DataValue.is_null] using this
  | Constant v n =>
    simpa [DataColumn.get_validity, DataColumn.null_at] using
      listGetD_replicate n i (!v.is_null) false (by simpa [DataColumn.len] using hi)

/-- `to_values` has one value per row. -/
theorem to_values_length (c : DataColumn) : c.to_values.length = c.len := by
  cases c <;> simp [DataColumn.to_values, DataColumn.len]

/-- Below the length, the staged value is null exactly when the row is. -/
theorem to_values_null (c : DataColumn) (i : Nat) (hi : i < c.len) :
    (c.to_values.getD i DataValue.Null).is_null = c.null_at i := by
  cases c with
  | Array vs => rfl
  | Constant v n =>
    have h := listGetD_replicate n i v DataValue.Null (by simpa [DataColumn.len] using hi)
    simp only [DataColumn.to_values, DataColumn.null_at]
    rw [h]

/-- `andBits` keeps the shorter length. -/
theorem andBits_length (a b : List Bool) :
    (andBits a b).length = min a.length b.length := by
  induction a generalizing b with
  | nil => cases b <;> simp [andBits]
  | cons x xs ih =>
    cases b with
    | nil => simp [andBits]
    | cons y ys => simp [andBits, ih, Nat.succ_min_succ]

/-- `andBits` is pointwise AND below both lengths. -/
theorem andBits_getD (a b : List Bool) (i : Nat)
    (h1 : i < a.length) (h2 : i < b.length) :
    (andBits a b).getD i false = (a.getD i false && b.getD i false) := by
  induction a generalizing b i with
  | nil => simp at h1
  | cons x xs ih =>
    cases b with
    | nil => simp at h2
    | cons y ys =>
      cases i with
      | zero => rfl
      | succ j => exact ih ys j (by simpa using h1) (by simpa using h2)

/-- Folding `andBits` over equal-length bit lists keeps the length. -/
theorem foldl_andBits_length (vs : List (List Bool)) (acc : List Bool) (n : Nat)
    (hacc : acc.length = n) (hvs : ∀ v ∈ vs, v.length = n) :
    (vs.foldl andBits acc).length = n := by
  induction vs generalizing acc with
  | nil => simpa using hacc
  | cons v t ih =>
    have hv : v.length = n := hvs v (List.mem_cons_self v t)
    have : (andBits acc v).length = n := by
      rw [andBits_length, hacc, hv, Nat.min_self]
    exact ih (andBits acc v) this (fun w hw => hvs w (List.mem_cons_of_mem v hw))

/-- Folding `andBits` is the pointwise AND of the accumulator with every
folded list, below the shared length. -/
theorem foldl_andBits_getD (vs : List (List Bool)) (acc : List Bool) (n i : Nat)
    (hacc : acc.length = n) (hvs : ∀ v ∈ vs, v.length = n) (hi : i < n) :
    (vs.foldl andBits acc).getD i false =
      (acc.getD i false && vs.all (fun v => v.getD i false)) := by
  induction vs generalizing acc with
  | nil => simp
  | cons v t ih =>
    have hv : v.length = n := hvs v (List.mem_cons_self v t)
    have hlen : (andBits acc v).length = n := by
      rw [andBits_length, hacc, hv, Nat.min_self]
    have step := ih (andBits acc v) hlen (fun w hw => hvs w (List.mem_cons_of_mem v hw))
    rw [List.foldl_cons, step, andBits_getD acc v i (hacc ▸ hi) (hv ▸ hi)]
    simp [Bool.and_assoc]

/-- The AND of all argument validities at a row is the negated "some
argument is null there". -/
theorem all_validities_at_row (args : List DataColumnWithField) (rows i : Nat)
    (h7 : ∀ a ∈ args, a.column.len = rows) (hi : i < rows) :
    args.all (fun a => a.column.get_validity.getD i false) =
      !args.any (fun a => a.column.null_at i) := by
  induction args with
  | nil => simp
  | cons a t ih =>
    have ha : a.column.len = rows := h7 a (List.mem_cons_self a t)
    have hv := get_validity_getD a.column i (ha ▸ hi)
    have ht := ih (fun b hb => h7 b (List.mem_cons_of_mem a hb))
    simp only [List.all_cons, List.any_cons, Bool.not_or, hv, ht]

/-- Length of a materialized array column. -/
theorem array_len (vs : List DataValue) : (DataColumn.Array vs).len = vs.length :=
  rfl

/-- Null test of a materialized array column. -/
theorem array_null_at (vs : List DataValue) (i : Nat) :
    (DataColumn.Array vs).null_at i = (vs.getD i DataValue.Null).is_null :=
  rfl

/-- `all` over a mapped validity list is `all` of the composite. -/
theorem all_map_validity (l : List DataColumnWithField) (i : Nat) :
    (l.map (fun c => c.column.get_validity)).all (fun v => v.getD i false)
      = l.all (fun a => a.column.get_validity.getD i false) := by
  induction l with
  | nil => rfl
  | cons a t ih => simp only [List.map_cons, List.all_cons, ih]

/-- C1: for a nullable passthrough function none of whose argument columns
is entirely null, the action evaluates the function and intersects the raw
result's validity with the AND of the argument validities: a row of the
output is null exactly when the raw result is null there or some argument
is null there. -/
theorem executeFunction_null_masking (cm : CMap) (f : ActionFunction) (rows : Nat)
    (args : List DataColumnWithField) (raw : DataColumn)
    (h1 : f.is_nullable = true) (h2 : f.func.passthrough_null = true)
    (h3 : resolveArgs cm f.arg_names = Except.ok args)
    (h4 : (args.map (fun c => c.column.get_validity)).any
        (fun v => allNull v) = false)
    (h5 : f.func.eval args rows = Except.ok raw)
    (h6 : raw.len = rows)
    (h7 : ∀ a ∈ args, a.column.len = rows) :
    ∃ out : DataColumn,
      executeFunction cm f rows =
        Except.ok { column := out
                    field := DataField.new f.name f.return_type f.is_nullable } ∧
      out.len = rows ∧
      (∀ i, i < rows →
        out.null_at i =
          (raw.null_at i || args.any (fun a => a.column.null_at i))) := by
  have hvlen : ∀ v ∈ args.map (fun c => c.column.get_validity), v.length = rows := by
    intro v hv
    rcases List.mem_map.mp hv with ⟨a, ha, rfl⟩
    rw [get_validity_length]
    exact h7 a ha
  have hraw : raw.get_validity.length = rows := by rw [get_validity_length, h6]
  have hmask_len :
      ((args.map (fun c => c.column.get_validity)).foldl andBits raw.get_validity).length
        = rows :=
    foldl_andBits_length _ _ rows hraw hvlen
  refine ⟨DataColumn.Array
      (((raw.to_values.zip
          ((args.map (fun c => c.column.get_validity)).foldl andBits raw.get_validity)).map
        (fun p => if p.2 then p.1 else DataValue.Null))), ?_, ?_, ?_⟩
  · unfold executeFunction
    rw [h3]
    simp only [h1, h2, Bool.and_self, if_true, h4, h5, DataColumn.apply_validities,
      Bool.false_eq_true, if_false]
  · rw [array_len, List.length_map, List.length_zip, to_values_length, h6,
      hmask_len, Nat.min_self]
  · intro i hi
    have hzl : i <
        (raw.to_values.zip
          ((args.map (fun c => c.column.get_validity)).foldl andBits raw.get_validity)).length := by
      rw [List.length_zip, to_values_length, h6, hmask_len]
      exact Nat.lt_min.mpr ⟨hi, hi⟩
    have hmap := listGetD_map (fun p : DataValue × Bool => if p.2 then p.1 else DataValue.Null)
      (raw.to_values.zip
        ((args.map (fun c => c.column.get_validity)).foldl andBits raw.get_validity))
      i (DataValue.Null, false) hzl
    have hzip := listGetD_zip raw.to_values
      ((args.map (fun c => c.column.get_validity)).foldl andBits raw.get_validity)
      i DataValue.Null false
      (by rw [to_values_length, h6]; exact hi) (by rw [hmask_len]; exact hi)
    have hmaski := foldl_andBits_getD (args.map (fun c => c.column.get_validity))
      raw.get_validity rows i hraw hvlen hi
    have hrawv := get_validity_getD raw i (h6 ▸ hi)
    have hrawn := to_values_null raw i (h6 ▸ hi)
    have hall := all_map_validity args i
    have hargs := all_validities_at_row args rows i h7 hi
    have hmap2 : ((raw.to_values.zip
          ((args.map (fun c => c.column.get_validity)).foldl andBits
            raw.get_validity)).map
          (fun p => if p.2 then p.1 else DataValue.Null)).getD i DataValue.Null
        = (if ((args.map (fun c => c.column.get_validity)).foldl andBits
              raw.get_validity).getD i false
           then raw.to_values.getD i DataValue.Null else DataValue.Null) := by
      refine hmap.trans ?_
      rw [hzip]
    rw [array_null_at, hmap2, hmaski, hrawv, hall, hargs]
    generalize hg : raw.to_values.getD i DataValue.Null = X at hrawn ⊢
    rw [← hrawn]
    cases hq : args.any (fun a => a.column.null_at i) <;> cases X <;>
      simp [DataValue.is_null]

/-- Witness for C1: argument validity `[true,false,true]`, raw output fully
valid; the output is null exactly at row 1. -/
theorem executeFunction_null_masking_witness :
    ∃ out : DataColumn,
      executeFunction cmapMasked funcMasked 3 =
        Except.ok { column := out
                    field := DataField.new funcMasked.name funcMasked.return_type
                      funcMasked.is_nullable } ∧
      out.len = 3 ∧
      (∀ i, i < 3 →
        out.null_at i =
          ((DataColumn.Array
              [DataValue.Int64 2, DataValue.Int64 9, DataValue.Int64 4]).null_at i ||
            [({ column := argColumnMasked
                field := DataField.new "a" DataTypeKind.Int64 true } :
              DataColumnWithField)].any (fun a => a.column.null_at i))) :=
  executeFunction_null_masking cmapMasked funcMasked 3
    [{ column := argColumnMasked, field := DataField.new "a" DataTypeKind.Int64 true }]
    (DataColumn.Array [DataValue.Int64 2, DataValue.Int64 9, DataValue.Int64 4])
    rfl rfl rfl rfl rfl rfl
    (List.forall_mem_singleton.mpr rfl)

/-! ### Alias-projection lemmas -/

/-- Lookup after insert: the inserted key wins, other keys unchanged. -/
theorem mapGet_insert {α : Type} (m : List (String × α)) (k x : String) (v : α) :
    mapGet (mapInsert m k v) x = if k == x then some v else mapGet m x := by
  induction m with
  | nil => rfl
  | cons p rest ih =>
    obtain ⟨k2, v2⟩ := p
    by_cases hk : (k2 == k) = true
    · have hk2 : k2 = k := by simpa using hk
      subst hk2
      by_cases hx : (k2 == x) = true
      · simp [mapInsert, mapGet, hx]
      · simp [mapInsert, mapGet, hx]
    · by_cases hx : (k2 == x) = true
      · have hx2 : k2 = x := by simpa using hx
        subst hx2
        have hkx : (k == k2) = false := by
          rcases Bool.eq_false_or_eq_true (k == k2) with h | h
          · have hk2 : k = k2 := by simpa using h
            exact absurd (by simpa using hk2.symm) hk
          · exact h
        simp [mapInsert, mapGet, hk, hx, hkx]
      · simp [mapInsert, mapGet, hk, hx, ih]

/-- Contains after insert: the inserted key, or anything contained before. -/
theorem containsKey_insert {α : Type} (m : List (String × α)) (k x : String) (v : α) :
    containsKey (mapInsert m k v) x = ((k == x) || containsKey m x) := by
  unfold containsKey
  rw [mapGet_insert]
  by_cases h : k == x
  · simp [h]
  · simp [h]

/-- Every error of `insertAliases` is the duplicate-alias error. -/
theorem insertAliases_error_shape (names : List String) (col : DataColumnWithField)
    (am : CMap) (e : ErrorCode)
    (h : insertAliases names col am = Except.error e) :
    ∃ n, e = ErrorCode.UnImplement (dupAliasMsg n) := by
  induction names generalizing am with
  | nil => exact absurd h (by simp [insertAliases])
  | cons n ns ih =>
    unfold insertAliases at h
    by_cases hc : containsKey am n
    · rw [if_pos hc] at h
      exact ⟨n, by injection h with h2; exact h2.symm⟩
    · rw [if_neg hc] at h
      exact ih (mapInsert am n col) h

/-- Registering a name already present errors (with the duplicate-alias
error, by the previous lemma). -/
theorem insertAliases_dup (names : List String) (col : DataColumnWithField)
    (y : String) (hy : y ∈ names) :
    ∀ am : CMap, containsKey am y = true →
      ∃ e, insertAliases names col am = Except.error e := by
  induction names with
  | nil => exact absurd hy (List.not_mem_nil y)
  | cons n ns ih =>
    intro am hcontains
    unfold insertAliases
    by_cases hc : containsKey am n
    · rw [if_pos hc]
      exact ⟨_, rfl⟩
    · rw [if_neg hc]
      have hyn : y ∈ ns := by
        rcases List.mem_cons.mp hy with h | h
        · subst h
          exact absurd hcontains (by simpa using hc)
        · exact h
      refine ih hyn (mapInsert am n col) ?_
      rw [containsKey_insert]
      simp [hcontains]

/-- After a successful `insertAliases`, the map contains every previously
contained key and every inserted name. -/
theorem insertAliases_ok_keys (names : List String) (col : DataColumnWithField)
    (am2 : CMap) (y : String) :
    ∀ am : CMap, insertAliases names col am = Except.ok am2 →
      containsKey am y = true ∨ y ∈ names →
      containsKey am2 y = true := by
  induction names with
  | nil =>
    intro am h hy
    have ham : am = am2 := by
      simpa [insertAliases] using h
    rcases hy with h2 | h2
    · exact ham ▸ h2
    · exact absurd h2 (List.not_mem_nil y)
  | cons n ns ih =>
    intro am h hy
    unfold insertAliases at h
    by_cases hc : containsKey am n
    · rw [if_pos hc] at h
      cases h
    · rw [if_neg hc] at h
      refine ih (mapInsert am n col) h ?_
      rcases hy with h2 | h2
      · refine Or.inl ?_
        rw [containsKey_insert]
        simp [h2]
      · rcases List.mem_cons.mp h2 with h3 | h3
        · subst h3
          refine Or.inl ?_
          rw [containsKey_insert]
          simp
        · exact Or.inr h3

/-- If the accumulated alias map already contains `y` and some later entry
of the alias-action map also lists `y` (all sources resolving), the
projection step fails with the duplicate-alias error. -/
theorem aliasProjectStep_dup_tail (aam : List (String × List String)) (cm : CMap)
    (y : String) :
    ∀ am0 : CMap,
      (∀ k l, (k, l) ∈ aam → containsKey cm k = true) →
      containsKey am0 y = true →
      (∃ k2 l2, (k2, l2) ∈ aam ∧ y ∈ l2) →
      ∃ n, aliasProjectStep aam cm am0 =
        Except.error (ErrorCode.UnImplement (dupAliasMsg n)) := by
  induction aam with
  | nil =>
    intro am0 hres hy0 hmem
    obtain ⟨k2, l2, hk2, _⟩ := hmem
    exact absurd hk2 (List.not_mem_nil _)
  | cons p rest ih =>
    intro am0 hres hy0 hmem
    obtain ⟨k, l⟩ := p
    have hck : containsKey cm k = true := hres k l (List.mem_cons_self _ _)
    obtain ⟨col, hcol⟩ := Option.isSome_iff_exists.mp hck
    unfold aliasProjectStep
    simp only [hcol]
    cases hins : insertAliases l col am0 with
    | error e =>
      obtain ⟨n, rfl⟩ := insertAliases_error_shape l col am0 e hins
      exact ⟨n, rfl⟩
    | ok am1 =>
      obtain ⟨k2, l2, hk2, hy2⟩ := hmem
      rcases List.mem_cons.mp hk2 with h | h
      · have hyl : y ∈ l := by
          injection h with h1 h2
          exact h2 ▸ hy2
        obtain ⟨e, he⟩ := insertAliases_dup l col y hyl am0 hy0
        rw [he] at hins
        cases hins
      · exact ih am1 (fun k3 l3 h3 => hres k3 l3 (List.mem_cons_of_mem _ h3))
          (insertAliases_ok_keys l col am1 y am0 hins (Or.inl hy0)) ⟨k2, l2, h, hy2⟩

/-- If two distinct entries of the alias-action map list the same target
name `y` (all sources resolving), the projection step fails with the
duplicate-alias error. -/
theorem aliasProjectStep_dup (aam : List (String × List String)) (cm : CMap) :
    ∀ am0 : CMap,
      (∀ k l, (k, l) ∈ aam → containsKey cm k = true) →
      (∃ (y : String) (e1 e2 : String × List String),
        e1 ∈ aam ∧ e2 ∈ aam ∧ e1 ≠ e2 ∧ y ∈ e1.2 ∧ y ∈ e2.2) →
      ∃ n, aliasProjectStep aam cm am0 =
        Except.error (ErrorCode.UnImplement (dupAliasMsg n)) := by
  induction aam with
  | nil =>
    intro am0 hres hdup
    obtain ⟨y, e1, e2, h1, _, _, _, _⟩ := hdup
    exact absurd h1 (List.not_mem_nil _)
  | cons p rest ih =>
    intro am0 hres hdup
    obtain ⟨k, l⟩ := p
    obtain ⟨y, e1, e2, h1, h2, hne, hy1, hy2⟩ := hdup
    have hck : containsKey cm k = true := hres k l (List.mem_cons_self _ _)
    obtain ⟨col, hcol⟩ := Option.isSome_iff_exists.mp hck
    unfold aliasProjectStep
    simp only [hcol]
    cases hins : insertAliases l col am0 with
    | error e =>
      obtain ⟨n, rfl⟩ := insertAliases_error_shape l col am0 e hins
      exact ⟨n, rfl⟩
    | ok am1 =>
      have hres2 : ∀ k3 l3, (k3, l3) ∈ rest → containsKey cm k3 = true :=
        fun k3 l3 h3 => hres k3 l3 (List.mem_cons_of_mem _ h3)
      rcases List.mem_cons.mp h1 with he1 | he1
      · -- e1 is the head: y went into am1; e2 must sit in the tail
        have he2r : e2 ∈ rest := by
          rcases List.mem_cons.mp h2 with h4 | h4
          · exact absurd (he1.trans h4.symm) hne
          · exact h4
        have hyl : y ∈ l := by
          have he : e1.2 = l := by rw [he1]
          exact he ▸ hy1
        have hy0 : containsKey am1 y = true :=
          insertAliases_ok_keys l col am1 y am0 hins (Or.inr hyl)
        exact aliasProjectStep_dup_tail rest cm y am1 hres2 hy0
          ⟨e2.1, e2.2, by simpa using he2r, hy2⟩
      · rcases List.mem_cons.mp h2 with he2 | he2
        · -- e2 is the head, e1 in the tail: symmetric
          have hyl : y ∈ l := by
            have he : e2.2 = l := by rw [he2]
            exact he ▸ hy2
          have hy0 : containsKey am1 y = true :=
            insertAliases_ok_keys l col am1 y am0 hins (Or.inr hyl)
          exact aliasProjectStep_dup_tail rest cm y am1 hres2 hy0
            ⟨e1.1, e1.2, by simpa using he1, hy1⟩
        · -- both in the tail
          exact ih am1 hres2 ⟨y, e1, e2, he1, he2, hne, hy1, hy2⟩

/-- Recording an alias puts its target name under its source key. -/
theorem aliasRecord_mem (aam : List (String × List String)) (arg name : String) :
    ∃ l, (arg, l) ∈ aliasRecord aam arg name ∧ name ∈ l := by
  induction aam with
  | nil => exact ⟨[name], List.mem_cons_self _ _, List.mem_singleton.mpr rfl⟩
  | cons p rest ih =>
    obtain ⟨k, v⟩ := p
    by_cases hk : (k == arg) = true
    · have hk2 : k = arg := by simpa using hk
      subst hk2
      refine ⟨v ++ [name], ?_, List.mem_append_right v (List.mem_singleton.mpr rfl)⟩
      simp [aliasRecord, hk]
    · obtain ⟨l, hl, hn⟩ := ih
      refine ⟨l, ?_, hn⟩
      simp only [aliasRecord, hk, if_false]
      exact List.mem_cons_of_mem _ hl

/-- Recording an alias preserves every recorded (source, target) pair. -/
theorem aliasRecord_preserve (aam : List (String × List String))
    (arg name k x : String)
    (h : ∃ l, (k, l) ∈ aam ∧ x ∈ l) :
    ∃ l, (k, l) ∈ aliasRecord aam arg name ∧ x ∈ l := by
  induction aam with
  | nil =>
    obtain ⟨l, hl, _⟩ := h
    exact absurd hl (List.not_mem_nil _)
  | cons p rest ih =>
    obtain ⟨k2, v⟩ := p
    obtain ⟨l, hl, hx⟩ := h
    by_cases hk : (k2 == arg) = true
    · simp only [aliasRecord, hk, if_true]
      rcases List.mem_cons.mp hl with he | he
      · injection he with he1 he2
        refine ⟨v ++ [name], ?_, ?_⟩
        · rw [he1]
          exact List.mem_cons_self _ _
        · exact List.mem_append_left _ (he2 ▸ hx)
      · exact ⟨l, List.mem_cons_of_mem _ he, hx⟩
    · simp only [aliasRecord, hk, if_false]
      rcases List.mem_cons.mp hl with he | he
      · exact ⟨l, he ▸ List.mem_cons_self _ _, hx⟩
      · obtain ⟨l2, hl2, hx2⟩ := ih ⟨l, he, hx⟩
        exact ⟨l2, List.mem_cons_of_mem _ hl2, hx2⟩

/-- `recordAction` preserves every recorded (source, target) pair. -/
theorem recordAction_preserve (action : ExpressionAction)
    (aam : List (String × List String)) (k x : String)
    (h : ∃ l, (k, l) ∈ aam ∧ x ∈ l) :
    ∃ l, (k, l) ∈ recordAction action aam ∧ x ∈ l := by
  cases action with
  | Alias al => exact aliasRecord_preserve aam al.arg_name al.name k x h
  | Input a => exact h
  | Function f => exact h
  | Constant c => exact h

/-- A (source, target) pair recorded before the loop survives the loop. -/
theorem runActions_preserve (acts : List ExpressionAction) (block : DataBlock)
    (rows : Nat) (cm2 : CMap) (aam2 : List (String × List String)) (k x : String) :
    ∀ (cm : CMap) (aam : List (String × List String)),
      runActions acts block rows cm aam = Except.ok (cm2, aam2) →
      (∃ l, (k, l) ∈ aam ∧ x ∈ l) →
      ∃ l, (k, l) ∈ aam2 ∧ x ∈ l := by
  induction acts with
  | nil =>
    intro cm aam h hmem
    have : aam = aam2 := by
      simp only [runActions] at h
      injection h with h2
      injection h2 with h3 h4
    exact this ▸ hmem
  | cons action rest ih =>
    intro cm aam h hmem
    unfold runActions at h
    cases happ : applyAction action block rows cm with
    | error e =>
      rw [happ] at h
      cases h
    | ok cm3 =>
      rw [happ] at h
      simp only at h
      exact ih cm3 (recordAction action aam) h (recordAction_preserve action aam k x hmem)

/-- Every alias action of a successfully processed chain is recorded: its
target name sits under its source key in the final alias-action map. -/
theorem runActions_alias_recorded (acts : List ExpressionAction) (block : DataBlock)
    (rows : Nat) (cm2 : CMap) (aam2 : List (String × List String))
    (al : ActionAlias) :
    ∀ (cm : CMap) (aam : List (String × List String)),
      runActions acts block rows cm aam = Except.ok (cm2, aam2) →
      ExpressionAction.Alias al ∈ acts →
      ∃ l, (al.arg_name, l) ∈ aam2 ∧ al.name ∈ l := by
  induction acts with
  | nil =>
    intro cm aam _ hmem
    exact absurd hmem (List.not_mem_nil _)
  | cons action rest ih =>
    intro cm aam h hmem
    unfold runActions at h
    cases happ : applyAction action block rows cm with
    | error e =>
      rw [happ] at h
      cases h
    | ok cm3 =>
      rw [happ] at h
      simp only at h
      rcases List.mem_cons.mp hmem with he | he
      · subst he
        exact runActions_preserve rest block rows cm2 aam2 al.arg_name al.name cm3
          (recordAction (ExpressionAction.Alias al) aam) h
          (aliasRecord_mem aam al.arg_name al.name)
      · exact ih cm3 (recordAction action aam) h he

/-- C7 (amended): when `alias_project` is enabled, the chain contains two
alias actions targeting the same name `y` from different sources, the
action loop completes, and every recorded alias source resolves in the
working map, `execute` fails with the duplicate-alias error instead of
producing an output block. -/
theorem execute_duplicate_alias_error (e : ExpressionExecutor) (block : DataBlock)
    (cm0 cm : CMap) (aam : List (String × List String)) (y k1 k2 : String)
    (hap : e.alias_project = true)
    (hseed : seedMap block.schema.fields block [] = Except.ok cm0)
    (hrun : runActions e.chain block block.num_rows cm0 [] = Except.ok (cm, aam))
    (ha1 : ExpressionAction.Alias { name := y, arg_name := k1 } ∈ e.chain)
    (ha2 : ExpressionAction.Alias { name := y, arg_name := k2 } ∈ e.chain)
    (hk : k1 ≠ k2)
    (hres : ∀ k l, (k, l) ∈ aam → containsKey cm k = true) :
    ∃ n, e.execute block =
      Except.error (ErrorCode.UnImplement (dupAliasMsg n)) := by
  obtain ⟨l1, hl1, hy1⟩ :=
    runActions_alias_recorded e.chain block block.num_rows cm aam
      { name := y, arg_name := k1 } cm0 [] hrun ha1
  obtain ⟨l2, hl2, hy2⟩ :=
    runActions_alias_recorded e.chain block block.num_rows cm aam
      { name := y, arg_name := k2 } cm0 [] hrun ha2
  have hne : ((k1, l1) : String × List String) ≠ (k2, l2) := by
    intro hc
    injection hc with hc1 hc2
    exact hk hc1
  obtain ⟨n, hstep⟩ := aliasProjectStep_dup aam cm []
    hres ⟨y, (k1, l1), (k2, l2), hl1, hl2, hne, hy1, hy2⟩
  refine ⟨n, ?_⟩
  unfold ExpressionExecutor.execute
  rw [hseed]
  simp only [hrun, hap, if_true, hstep]

/-- Witness for C7 (amended): the concrete executor with alias projection
on and two aliases `a → y`, `b → y` fails with the duplicate-alias error. -/
theorem execute_duplicate_alias_error_witness :
    ∃ n, execDupProject.execute blockAB =
      Except.error (ErrorCode.UnImplement (dupAliasMsg n)) :=
  execute_duplicate_alias_error execDupProject blockAB
    [("a", { column := DataColumn.Array [DataValue.Int64 1]
             field := DataField.new "a" DataTypeKind.Int64 false }),
     ("b", { column := DataColumn.Array [DataValue.Int64 2]
             field := DataField.new "b" DataTypeKind.Int64 false })]
    [("a", { column := DataColumn.Array [DataValue.Int64 1]
             field := DataField.new "a" DataTypeKind.Int64 false }),
     ("b", { column := DataColumn.Array [DataValue.Int64 2]
             field := DataField.new "b" DataTypeKind.Int64 false })]
    [("a", ["y"]), ("b", ["y"])] "y" "a" "b"
    rfl rfl rfl
    (List.Mem.head _)
    (List.Mem.tail _ (List.Mem.head _))
    (by decide)
    (by
      intro k l hkl
      rcases List.mem_cons.mp hkl with h | h
      · injection h with h1 h2
        subst h1
        decide
      · rcases List.mem_cons.mp h with h2 | h2
        · injection h2 with h3 h4
          subst h3
          decide
        · exact absurd h2 (List.not_mem_nil _))

/-- C7 counterexample: the claim as stated ignores the `alias_project`
flag; with alias projection disabled the same duplicate-target chain
executes successfully and produces an output block. -/
theorem execute_duplicate_alias_counterexample :
    execDupNoProject.execute blockAB =
      Except.ok { schema := { fields := [DataField.new "a" DataTypeKind.Int64 false] }
                  columns := [DataColumn.Array [DataValue.Int64 1]] } :=
  rfl

end Databend
